import Mathlib

/-!
Shallow embedding of the podcast-workspace pipeline pieces that the
verified claims are about.

Python strings are modelled as Lean `String`; the Python string
operations used by the code (`strip`, `startswith`, slicing,
`splitlines`, `'\n'.join`) are implemented structurally over the
character list `String.data` so that every definition evaluates by
kernel reduction.  Python `str.strip()` removes ASCII whitespace here
(`Char.isWhitespace`); the scripts under verification only ever contain
ASCII whitespace.  Python slicing `s[:n]` and `s[n:]` count code points,
matching `List.take`/`List.drop` on `String.data`.

Audio segments are modelled by their durations in milliseconds
(a `Nat`); `pydub` concatenation adds durations and `set_channels`
leaves the duration unchanged, which is all `combine_segments` uses.
-/

/-- Python `str.strip()` restricted to ASCII whitespace. -/
def pyStrip (s : String) : String :=
  String.mk (((s.data.dropWhile Char.isWhitespace).reverse.dropWhile Char.isWhitespace).reverse)

/-- Python `s.startswith(p)`. -/
def pyStartsWith (s p : String) : Bool := p.data.isPrefixOf s.data

/-- Python `s[n:]` (drop the first `n` code points). -/
def pyDrop (s : String) (n : Nat) : String := String.mk (s.data.drop n)

/-- Python `s[:n]` (keep the first `n` code points). -/
def pyTake (s : String) (n : Nat) : String := String.mk (s.data.take n)

/-- Splits a character list at every newline character. -/
def splitNlChars : List Char → List (List Char)
  | [] => [[]]
  | c :: rest =>
    let r := splitNlChars rest
    if c = '\n' then [] :: r
    else
      match r with
      | h :: t => (c :: h) :: t
      | [] => [[c]]

/-- Python `str.splitlines()` for scripts whose line terminator is `'\n'`:
the empty string yields no lines, and a trailing newline does not
produce a trailing empty line. -/
def pySplitlines (s : String) : List String :=
  if s.data = [] then []
  else
    let parts := (splitNlChars s.data).map String.mk
    if s.data.getLast? = some '\n' then parts.dropLast else parts

/-- Python `'\n'.join(lines)`. -/
def joinNl : List String → String
  | [] => ""
  | [l] => l
  | l :: rest => l ++ "\n" ++ joinNl rest

/-- One dialogue turn, as built by `extract_turns` in
`gemini-2-podcast/generate_audio.py`: `speaker` is the alias
(`"SpeakerA"` or `"SpeakerB"`) and `text` the spoken text. -/
structure Turn where
  speaker : String
  text : String
deriving DecidableEq, Repr

/-- Serialized form of one turn inside a TTS prompt, from `chunk_turns`:
the f-string `f"{turn['speaker']}: {turn['text']}\n"`. -/
def turnLine (t : Turn) : String := t.speaker ++ ": " ++ t.text ++ "\n"

/-- UTF-8 byte size of a turn's serialized line
(`len(line.encode("utf-8"))` in `chunk_turns`). -/
def lineBytes (t : Turn) : Nat := (turnLine t).utf8ByteSize

/-- Total serialized byte size of a batch of turns. -/
def batchBytes (b : List Turn) : Nat := (b.map lineBytes).sum

/-- Loop of `chunk_turns` (generate_audio.py lines 62-84): greedily packs
turns into the current batch, flushing the batch when adding the next
line would exceed `avail` bytes, and failing on any single line larger
than `avail`.  State: remaining turns, finished batches, current batch,
current batch byte count. -/
def chunkGo (avail : Int) :
    List Turn → List (List Turn) → List Turn → Nat → Except String (List (List Turn))
  | [], batches, current, _ =>
    .ok (if current = [] then batches else batches ++ [current])
  | turn :: rest, batches, current, currentBytes =>
    let lb := lineBytes turn
    if (lb : Int) > avail then
      .error "A single dialogue line exceeds the allowed prompt size."
    else if current ≠ [] ∧ ((currentBytes + lb : Nat) : Int) > avail then
      chunkGo avail rest (batches ++ [current]) [turn] lb
    else
      chunkGo avail rest batches (current ++ [turn]) (currentBytes + lb)

/-- Embedding of `chunk_turns(turns, available_bytes)` from
`gemini-2-podcast/generate_audio.py` (lines 57-85). -/
def chunk_turns (turns : List Turn) (available_bytes : Int) :
    Except String (List (List Turn)) :=
  if available_bytes ≤ 0 then
    .error "Prompt byte limit must be greater than zero"
  else
    chunkGo available_bytes turns [] [] 0

/-- Loop body of `extract_turns` (generate_audio.py lines 35-51) over the
already-split lines: strips each raw line, skips blank lines, dispatches
on the speaker labels in dictionary order (`"Speaker A:"` first, then
`"Speaker B:"`), rejects a label with no following text, and rejects any
other non-blank line. -/
def extractGo : List String → Except String (List Turn)
  | [] => .ok []
  | raw :: rest =>
    let line := pyStrip raw
    if line = "" then extractGo rest
    else if pyStartsWith line "Speaker A:" then
      let spoken := pyStrip (pyDrop line 10)
      if spoken = "" then .error "No dialogue found after label Speaker A:"
      else
        match extractGo rest with
        | .error e => .error e
        | .ok ts => .ok (⟨"SpeakerA", spoken⟩ :: ts)
    else if pyStartsWith line "Speaker B:" then
      let spoken := pyStrip (pyDrop line 10)
      if spoken = "" then .error "No dialogue found after label Speaker B:"
      else
        match extractGo rest with
        | .error e => .error e
        | .ok ts => .ok (⟨"SpeakerB", spoken⟩ :: ts)
    else
      .error "Script must contain lines that begin with Speaker A: or Speaker B:"

/-- Embedding of `extract_turns(script_text)` from
`gemini-2-podcast/generate_audio.py` (lines 35-54), including the final
check that at least one turn was produced. -/
def extract_turns (script_text : String) : Except String (List Turn) :=
  match extractGo (pySplitlines script_text) with
  | .error e => .error e
  | .ok [] => .error "Podcast script is empty; run generate_script.py first"
  | .ok ts => .ok ts

/-- Specification predicate used to state the `extract_turns` theorem:
a raw script line is acceptable when, after stripping, it is blank or
carries one of the two speaker labels followed by non-blank text.  The
if-chain mirrors the dispatch order of the source loop. -/
def goodLine (raw : String) : Bool :=
  let line := pyStrip raw
  if line = "" then true
  else if pyStartsWith line "Speaker A:" then pyStrip (pyDrop line 10) ≠ ""
  else if pyStartsWith line "Speaker B:" then pyStrip (pyDrop line 10) ≠ ""
  else false

/-- Specification function used to state the `extract_turns` theorem:
the turn produced by one raw line (`none` for a blank or unmatched
line), mirroring the dispatch order of the source loop. -/
def lineTurn (raw : String) : Option Turn :=
  let line := pyStrip raw
  if line = "" then none
  else if pyStartsWith line "Speaker A:" then some ⟨"SpeakerA", pyStrip (pyDrop line 10)⟩
  else if pyStartsWith line "Speaker B:" then some ⟨"SpeakerB", pyStrip (pyDrop line 10)⟩
  else none

/-- Duration (in milliseconds) of the track built by
`combine_segments(segments, output_path)` in
`gemini-2-podcast/generate_audio.py` (lines 126-133): starting from the
empty track it appends, for every segment, the segment followed by the
configured silence (`set_channels(2)` does not change duration).
Segments are modelled by their durations. -/
def combine_segments_duration (silence_ms : Nat) (segments : List Nat) : Nat :=
  segments.foldl (fun acc d => acc + (d + silence_ms)) 0

/-- Assembly step of `main` in `gemini-2-podcast/generate_audio.py`
(lines 157-161): raises `RuntimeError("No audio segments were
generated")` when the synthesized segment list is empty, otherwise
combines the segments into one track. -/
def main_assemble (silence_ms : Nat) (segments : List Nat) : Except String Nat :=
  if segments = [] then .error "No audio segments were generated"
  else .ok (combine_segments_duration silence_ms segments)

/-- Line test of `clean_podcast_script` (generate_script.py line 206):
`re.match(r"^(Speaker A:|Speaker B:)", line)`, i.e. the raw line starts
with one of the two speaker labels. -/
def isSpeakerStart (line : String) : Bool :=
  pyStartsWith line "Speaker A:" || pyStartsWith line "Speaker B:"

/-- Loop of `clean_podcast_script` (generate_script.py lines 211-215):
returns the line suffix starting at the first line matching the speaker
pattern, or `none` when no line matches. -/
def cleanGo : List String → Option (List String)
  | [] => none
  | l :: rest => if isSpeakerStart l then some (l :: rest) else cleanGo rest

/-- Embedding of `clean_podcast_script(script)` from
`gemini-2-podcast/generate_script.py` (lines 204-218): joins the suffix
of lines starting at the first speaker line, or returns the input
unchanged when no line matches. -/
def clean_podcast_script (script : String) : String :=
  match cleanGo (pySplitlines script) with
  | some suf => joinNl suf
  | none => script

/-- Rounding of a rational to the nearest integer with ties to even,
the rounding mode of Python's built-in `round`. -/
def roundHalfEven (q : ℚ) : ℤ :=
  let f : ℤ := ⌊q⌋
  let r : ℚ := q - f
  if r < 1 / 2 then f
  else if r > 1 / 2 then f + 1
  else if f % 2 = 0 then f else f + 1

/-- Python `round(x, 3)`: round to three decimal places, ties to even. -/
def round3 (q : ℚ) : ℚ := (roundHalfEven (q * 1000) : ℚ) / 1000

/-- Embedding of `compute_audio_duration_seconds(wav_path)` from
`storytelling-backend/scripts/import_gemini_dialogue.py` (lines
100-106), abstracting the WAV file by its declared frame count and
frame rate; the quotient is computed exactly in `ℚ` where the source
uses binary floating point. -/
def compute_audio_duration_seconds (frames rate : Nat) : ℚ :=
  if rate = 0 then 0
  else round3 ((frames : ℚ) / (rate : ℚ))

/-- Job states of `PodcastJobStatus` in
`backend/server/app/db/models/podcast_job.py`. -/
inductive PodcastJobStatus where
  | queued
  | running
  | succeeded
  | failed
deriving DecidableEq, Repr

/-- Result-path dictionary produced by `_execute_pipeline`
(string keys mapping to a path string or `None`). -/
def ResultPaths := List (String × Option String)
deriving DecidableEq

/-- Mutable columns of a `PodcastJob` record
(`backend/server/app/db/models/podcast_job.py`) that the repository and
worker read or write. -/
structure PodcastJob where
  status : PodcastJobStatus
  payload : List (String × String)
  requested_by : Option String
  result_paths : Option ResultPaths
  error_message : Option String
  progress : Option Int
  log_excerpt : Option String

/-- Embedding of `PodcastJobRepository.update_status` from
`backend/server/app/services/podcast_jobs.py` (lines 53-75): the status
is always written; each keyword argument is written only when it is not
`None`. -/
def update_status (job : PodcastJob) (status : PodcastJobStatus)
    (result_paths : Option ResultPaths) (error_message : Option String)
    (progress : Option Int) (log_excerpt : Option String) : PodcastJob :=
  let j := { job with status := status }
  let j := match result_paths with
    | some v => { j with result_paths := some v }
    | none => j
  let j := match error_message with
    | some v => { j with error_message := some v }
    | none => j
  let j := match progress with
    | some v => { j with progress := some v }
    | none => j
  let j := match log_excerpt with
    | some v => { j with log_excerpt := some v }
    | none => j
  j

/-- Externally visible effects of one `_process_job` run: invoking the
pipeline (`_execute_pipeline`) and putting a message on the job queue. -/
inductive WorkerEffect where
  | runPipeline
  | enqueue
deriving DecidableEq, Repr

/-- Outcome of a pipeline stage raising: the exception text `str(exc)`
and the failure detail `traceback.format_exc()`. -/
structure PipelineFailure where
  message : String
  detail : String

/-- Embedding of `PodcastJobWorker._process_job` from
`backend/server/app/workers/podcast_job_worker.py` (lines 94-140) for a
job present in the database, abstracting `_execute_pipeline` by its
outcome: the record is first marked running (progress 5), the pipeline
runs exactly once, and the record is then marked failed (with truncated
diagnostics) or succeeded.  The returned effect list records every
pipeline invocation and queue insertion the run performs. -/
def process_job (job : PodcastJob)
    (outcome : Except PipelineFailure ResultPaths) : PodcastJob × List WorkerEffect :=
  let running := update_status job .running none none (some 5) (some "Dequeued")
  match outcome with
  | .error f =>
    (update_status running .failed none (some (pyTake f.message 1024)) (some 100)
      (some (pyTake f.detail 2048)), [.runPipeline])
  | .ok paths =>
    (update_status running .succeeded (some paths) none (some 100)
      (some "Completed"), [.runPipeline])

lemma combine_foldl (silence_ms : Nat) (l : List Nat) :
    ∀ acc : Nat, l.foldl (fun a d => a + (d + silence_ms)) acc
      = acc + l.sum + l.length * silence_ms := by
  induction l with
  | nil => intro acc; simp
  | cons d rest ih => intro acc; simp [List.foldl, ih]; ring

/-- C1 counterexample: for a single segment of 100 ms and a silence of
50 ms, `combine_segments` produces 150 ms, not the claimed
`sum + (N-1) × silence = 100` ms — the code appends silence after every
segment, including the last. -/
theorem combine_segments_duration_counterexample :
    combine_segments_duration 50 [100] ≠ [100].sum + ([100].length - 1) * 50 := by
  decide

/-- C1 (amended): for every non-empty list of N audio segments and a
fixed silence duration, `combine_segments` produces one output track
whose total duration equals the sum of the segment durations plus N
times the silence duration (one silence after every segment, the last
included). -/
theorem combine_segments_duration_eq (silence_ms : Nat) (segments : List Nat)
    (_h : segments ≠ []) :
    combine_segments_duration silence_ms segments
      = segments.sum + segments.length * silence_ms := by
  unfold combine_segments_duration
  simpa using combine_foldl silence_ms segments 0

/-- Witness for C1 (amended) at segments `[100, 200]` and silence 50. -/
theorem combine_segments_duration_eq_witness :
    ([100, 200] : List Nat) ≠ [] ∧
      combine_segments_duration 50 [100, 200]
        = [100, 200].sum + ([100, 200] : List Nat).length * 50 :=
  ⟨by decide, combine_segments_duration_eq 50 [100, 200] (by decide)⟩

/-- C7: assembling an empty segment list is an error — the pipeline's
`main` raises `RuntimeError("No audio segments were generated")` when
the synthesized segment list is empty, before any audio is produced. -/
theorem main_assemble_empty (silence_ms : Nat) :
    main_assemble silence_ms [] = .error "No audio segments were generated" := rfl

/-- C5: with budget 60 and three turns whose serialized lines take 30,
40 and 25 bytes, `chunk_turns` returns exactly the three singleton
batches: turn 2 is not packed with turn 1 (30 + 40 > 60) and turn 3 is
not packed with turn 2 (40 + 25 > 60). -/
theorem chunk_turns_boundary_example :
    lineBytes ⟨"SpeakerA", String.mk (List.replicate 19 'a')⟩ = 30 ∧
    lineBytes ⟨"SpeakerB", String.mk (List.replicate 29 'b')⟩ = 40 ∧
    lineBytes ⟨"SpeakerA", String.mk (List.replicate 14 'c')⟩ = 25 ∧
    chunk_turns
      [⟨"SpeakerA", String.mk (List.replicate 19 'a')⟩,
       ⟨"SpeakerB", String.mk (List.replicate 29 'b')⟩,
       ⟨"SpeakerA", String.mk (List.replicate 14 'c')⟩] 60
      = .ok
        [[⟨"SpeakerA", String.mk (List.replicate 19 'a')⟩],
         [⟨"SpeakerB", String.mk (List.replicate 29 'b')⟩],
         [⟨"SpeakerA", String.mk (List.replicate 14 'c')⟩]] := by
  exact ⟨by decide, by decide, by decide, rfl⟩

/-- C10: `compute_audio_duration_seconds` never divides by zero — a
declared frame rate of 0 yields 0.0, and otherwise the result is the
frame count divided by the frame rate rounded to three decimal places;
in particular 240000 frames at 24000 Hz give exactly 10.0 seconds. -/
theorem compute_audio_duration_seconds_spec :
    (∀ frames : Nat, compute_audio_duration_seconds frames 0 = 0) ∧
    (∀ frames rate : Nat, rate ≠ 0 →
      compute_audio_duration_seconds frames rate = round3 ((frames : ℚ) / (rate : ℚ))) ∧
    compute_audio_duration_seconds 240000 24000 = 10 := by
  refine ⟨fun frames => rfl, fun frames rate h => by simp [compute_audio_duration_seconds, h], ?_⟩
  norm_num [compute_audio_duration_seconds, round3, roundHalfEven]

/-- Witness for C10 at 240000 frames and rate 24000. -/
theorem compute_audio_duration_seconds_witness :
    compute_audio_duration_seconds 240000 24000 = round3 ((240000 : ℚ) / (24000 : ℚ)) :=
  compute_audio_duration_seconds_spec.2.1 240000 24000 (by decide)

/-- C8: `update_status` is a partial update — the status argument and
every non-`None` optional argument are written, while each optional
argument passed as `None` leaves the corresponding record field
unchanged. -/
theorem update_status_frame (job : PodcastJob) (status : PodcastJobStatus)
    (result_paths : Option ResultPaths) (error_message : Option String)
    (progress : Option Int) (log_excerpt : Option String) :
    (update_status job status result_paths error_message progress log_excerpt).status = status
    ∧ (result_paths = none →
        (update_status job status result_paths error_message progress log_excerpt).result_paths
          = job.result_paths)
    ∧ (∀ v, result_paths = some v →
        (update_status job status result_paths error_message progress log_excerpt).result_paths
          = some v)
    ∧ (error_message = none →
        (update_status job status result_paths error_message progress log_excerpt).error_message
          = job.error_message)
    ∧ (∀ v, error_message = some v →
        (update_status job status result_paths error_message progress log_excerpt).error_message
          = some v)
    ∧ (progress = none →
        (update_status job status result_paths error_message progress log_excerpt).progress
          = job.progress)
    ∧ (∀ v, progress = some v →
        (update_status job status result_paths error_message progress log_excerpt).progress
          = some v)
    ∧ (log_excerpt = none →
        (update_status job status result_paths error_message progress log_excerpt).log_excerpt
          = job.log_excerpt)
    ∧ (∀ v, log_excerpt = some v →
        (update_status job status result_paths error_message progress log_excerpt).log_excerpt
          = some v) := by
  cases result_paths <;> cases error_message <;> cases progress <;> cases log_excerpt <;>
    simp [update_status]

/-- Witness for C8: a concrete call writing `error_message` and
`progress` while passing `result_paths` and `log_excerpt` as `None`. -/
theorem update_status_frame_witness :
    (update_status ⟨.queued, [], none, none, none, some 3, some "old"⟩ .failed none
        (some "boom") (some 100) none).error_message = some "boom"
    ∧ (update_status ⟨.queued, [], none, none, none, some 3, some "old"⟩ .failed none
        (some "boom") (some 100) none).log_excerpt = some "old" :=
  ⟨(update_status_frame ⟨.queued, [], none, none, none, some 3, some "old"⟩ .failed none
      (some "boom") (some 100) none).2.2.2.2.1 "boom" rfl,
   (update_status_frame ⟨.queued, [], none, none, none, some 3, some "old"⟩ .failed none
      (some "boom") (some 100) none).2.2.2.2.2.2.2.1 rfl⟩

/-- C4: when the pipeline raises during job processing, `_process_job`
marks the record failed with progress 100, the exception text truncated
to 1024 characters and the failure detail truncated to 2048 characters,
and its only effect is the single pipeline invocation — the stage is
not retried and the job is not re-enqueued. -/
theorem process_job_failure (job : PodcastJob) (f : PipelineFailure) :
    (process_job job (.error f)).1.status = .failed
    ∧ (process_job job (.error f)).1.progress = some 100
    ∧ (process_job job (.error f)).1.error_message = some (pyTake f.message 1024)
    ∧ (process_job job (.error f)).1.log_excerpt = some (pyTake f.detail 2048)
    ∧ (process_job job (.error f)).2 = [.runPipeline]
    ∧ ((process_job job (.error f)).2.count .runPipeline = 1
        ∧ WorkerEffect.enqueue ∉ (process_job job (.error f)).2) := by
  refine ⟨rfl, rfl, rfl, rfl, rfl, rfl, by simp [process_job]⟩

lemma batchBytes_singleton (t : Turn) : batchBytes [t] = lineBytes t := by
  simp [batchBytes]

lemma batchBytes_append_single (b : List Turn) (t : Turn) :
    batchBytes (b ++ [t]) = batchBytes b + lineBytes t := by
  simp [batchBytes]

lemma chunkGo_ok_spec (avail : Int) (rest : List Turn) :
    ∀ (batches : List (List Turn)) (current : List Turn) (out : List (List Turn)),
      chunkGo avail rest batches current (batchBytes current) = .ok out →
      (∀ b ∈ batches, b ≠ [] ∧ (batchBytes b : Int) ≤ avail) →
      (batchBytes current : Int) ≤ avail →
      (∀ b ∈ out, b ≠ [] ∧ (batchBytes b : Int) ≤ avail) ∧
        out.join = batches.join ++ current ++ rest := by
  induction rest with
  | nil =>
    intro batches current out hok hb hc
    simp only [chunkGo] at hok
    by_cases hcur : current = []
    · rw [if_pos hcur] at hok
      cases hok
      subst hcur
      simpa using hb
    · rw [if_neg hcur] at hok
      cases hok
      refine ⟨?_, by simp⟩
      intro b hbmem
      rcases List.mem_append.mp hbmem with hmem | hmem
      · exact hb b hmem
      · rcases List.mem_singleton.mp hmem with rfl
        exact ⟨hcur, hc⟩
  | cons turn rest ih =>
    intro batches current out hok hb hc
    simp only [chunkGo] at hok
    by_cases h1 : (lineBytes turn : Int) > avail
    · rw [if_pos h1] at hok
      cases hok
    · rw [if_neg h1] at hok
      by_cases h2 : current ≠ [] ∧ ((batchBytes current + lineBytes turn : Nat) : Int) > avail
      · rw [if_pos h2] at hok
        rw [← batchBytes_singleton turn] at hok
        have hb2 : ∀ b ∈ batches ++ [current], b ≠ [] ∧ (batchBytes b : Int) ≤ avail := by
          intro b hbmem
          rcases List.mem_append.mp hbmem with hmem | hmem
          · exact hb b hmem
          · rcases List.mem_singleton.mp hmem with rfl
            exact ⟨h2.1, hc⟩
        have hc2 : (batchBytes [turn] : Int) ≤ avail := by
          rw [batchBytes_singleton]; omega
        rcases ih (batches ++ [current]) [turn] out hok hb2 hc2 with ⟨hprops, hjoin⟩
        refine ⟨hprops, ?_⟩
        rw [hjoin]
        simp
      · rw [if_neg h2] at hok
        rw [← batchBytes_append_single current turn] at hok
        have hc2 : (batchBytes (current ++ [turn]) : Int) ≤ avail := by
          rw [batchBytes_append_single]
          by_cases hcur : current = []
          · subst hcur
            simp only [batchBytes, List.map_nil, List.sum_nil, Nat.zero_add]
            omega
          · push_neg at h2
            have := h2 hcur
            omega
        rcases ih batches (current ++ [turn]) out hok hb hc2 with ⟨hprops, hjoin⟩
        refine ⟨hprops, ?_⟩
        rw [hjoin]
        simp

/-- C2: whenever `chunk_turns` succeeds, every returned batch is
non-empty, the concatenation of the batches in order reproduces the
input turn sequence exactly, and every batch's serialized byte size is
at most the budget. -/
theorem chunk_turns_spec (turns : List Turn) (B : Int) (out : List (List Turn))
    (hok : chunk_turns turns B = .ok out) :
    (∀ b ∈ out, b ≠ []) ∧ out.join = turns ∧
      ∀ b ∈ out, (batchBytes b : Int) ≤ B := by
  unfold chunk_turns at hok
  by_cases hB : B ≤ 0
  · rw [if_pos hB] at hok
    cases hok
  · rw [if_neg hB] at hok
    have h0 : batchBytes ([] : List Turn) = 0 := rfl
    rw [← h0] at hok
    rcases chunkGo_ok_spec B turns [] [] out hok (by simp)
        (by rw [h0]; omega) with ⟨hprops, hjoin⟩
    refine ⟨fun b hbmem => (hprops b hbmem).1, by simpa using hjoin,
      fun b hbmem => (hprops b hbmem).2⟩

/-- Witness for C2: a one-turn input within a budget of 60 bytes. -/
theorem chunk_turns_spec_witness :
    (∀ b ∈ [[(⟨"SpeakerA", "hi"⟩ : Turn)]], b ≠ []) ∧
      ([[(⟨"SpeakerA", "hi"⟩ : Turn)]] : List (List Turn)).join = [⟨"SpeakerA", "hi"⟩] ∧
      ∀ b ∈ [[(⟨"SpeakerA", "hi"⟩ : Turn)]], (batchBytes b : Int) ≤ 60 :=
  chunk_turns_spec [⟨"SpeakerA", "hi"⟩] 60 [[⟨"SpeakerA", "hi"⟩]] rfl

lemma chunkGo_oversize_error (avail : Int) (rest : List Turn) :
    ∀ (batches : List (List Turn)) (current : List Turn) (cb : Nat),
      (∃ t ∈ rest, (lineBytes t : Int) > avail) →
      ∃ e, chunkGo avail rest batches current cb = .error e := by
  induction rest with
  | nil =>
    intro _ _ _ h
    simp at h
  | cons turn rest ih =>
    intro batches current cb h
    simp only [chunkGo]
    by_cases h1 : (lineBytes turn : Int) > avail
    · rw [if_pos h1]
      exact ⟨_, rfl⟩
    · rw [if_neg h1]
      have hrest : ∃ t ∈ rest, (lineBytes t : Int) > avail := by
        rcases h with ⟨t, ht, hgt⟩
        rcases List.mem_cons.mp ht with rfl | hm
        · exact absurd hgt h1
        · exact ⟨t, hm, hgt⟩
      by_cases h2 : current ≠ [] ∧ ((cb + lineBytes turn : Nat) : Int) > avail
      · rw [if_pos h2]
        exact ih _ _ _ hrest
      · rw [if_neg h2]
        exact ih _ _ _ hrest

/-- C3: a turn sequence containing at least one turn whose own
serialized line exceeds the budget makes `chunk_turns` fail with an
error for that input, regardless of the other turns present. -/
theorem chunk_turns_oversize_fails (turns : List Turn) (B : Int)
    (h : ∃ t ∈ turns, (lineBytes t : Int) > B) :
    ∃ e, chunk_turns turns B = .error e := by
  unfold chunk_turns
  by_cases hB : B ≤ 0
  · rw [if_pos hB]
    exact ⟨_, rfl⟩
  · rw [if_neg hB]
    exact chunkGo_oversize_error B turns [] [] 0 h

/-- Witness for C3: a 41-byte line among 13-byte lines under budget 20. -/
theorem chunk_turns_oversize_fails_witness :
    ∃ e, chunk_turns
      [⟨"SpeakerA", "hi"⟩, ⟨"SpeakerB", String.mk (List.replicate 30 'x')⟩] 20
      = .error e :=
  chunk_turns_oversize_fails _ 20
    ⟨⟨"SpeakerB", String.mk (List.replicate 30 'x')⟩, by decide, by decide⟩

lemma lineTurn_of_blank (raw : String) (h : pyStrip raw = "") : lineTurn raw = none := by
  simp [lineTurn, h]

lemma goodLine_spoken_A (raw : String) (hgood : goodLine raw = true)
    (hb : ¬ pyStrip raw = "") (hA : pyStartsWith (pyStrip raw) "Speaker A:" = true) :
    ¬ pyStrip (pyDrop (pyStrip raw) 10) = "" := by
  simp only [goodLine, if_neg hb, if_pos hA, decide_eq_true_eq] at hgood
  exact hgood

lemma goodLine_spoken_B (raw : String) (hgood : goodLine raw = true)
    (hb : ¬ pyStrip raw = "") (hA : ¬ pyStartsWith (pyStrip raw) "Speaker A:" = true)
    (hB : pyStartsWith (pyStrip raw) "Speaker B:" = true) :
    ¬ pyStrip (pyDrop (pyStrip raw) 10) = "" := by
  simp only [goodLine, if_neg hb, if_neg hA, if_pos hB, decide_eq_true_eq] at hgood
  exact hgood

lemma extractGo_ok_of_good : ∀ lines : List String,
    (∀ raw ∈ lines, goodLine raw = true) →
    extractGo lines = .ok (lines.filterMap lineTurn) := by
  intro lines
  induction lines with
  | nil => intro _; rfl
  | cons raw rest ih =>
    intro h
    have hgood : goodLine raw = true := h raw (List.mem_cons_self raw rest)
    have hrest := ih (fun r hr => h r (List.mem_cons_of_mem raw hr))
    by_cases hb : pyStrip raw = ""
    · simp only [extractGo, if_pos hb, List.filterMap_cons, lineTurn_of_blank raw hb]
      exact hrest
    · by_cases hA : pyStartsWith (pyStrip raw) "Speaker A:" = true
      · have hsp := goodLine_spoken_A raw hgood hb hA
        simp only [extractGo, if_neg hb, if_pos hA, if_neg hsp, hrest,
          List.filterMap_cons, lineTurn]
      · by_cases hB : pyStartsWith (pyStrip raw) "Speaker B:" = true
        · have hsp := goodLine_spoken_B raw hgood hb hA hB
          simp only [extractGo, if_neg hb, if_neg hA, if_pos hB, if_neg hsp, hrest,
            List.filterMap_cons, lineTurn]
        · exfalso
          simp only [goodLine, if_neg hb, if_neg hA, if_neg hB] at hgood
          cases hgood

lemma extractGo_error_of_bad : ∀ lines : List String,
    (∃ raw ∈ lines, goodLine raw = false) →
    ∃ e, extractGo lines = .error e := by
  intro lines
  induction lines with
  | nil => intro h; simp at h
  | cons raw rest ih =>
    intro h
    by_cases hgood : goodLine raw = true
    · have hrest : ∃ r ∈ rest, goodLine r = false := by
        rcases h with ⟨r, hr, hbad⟩
        rcases List.mem_cons.mp hr with rfl | hm
        · rw [hgood] at hbad; cases hbad
        · exact ⟨r, hm, hbad⟩
      rcases ih hrest with ⟨e, he⟩
      by_cases hb : pyStrip raw = ""
      · exact ⟨e, by simp only [extractGo, if_pos hb]; exact he⟩
      · by_cases hA : pyStartsWith (pyStrip raw) "Speaker A:" = true
        · have hsp := goodLine_spoken_A raw hgood hb hA
          exact ⟨e, by simp only [extractGo, if_neg hb, if_pos hA, if_neg hsp, he]⟩
        · by_cases hB : pyStartsWith (pyStrip raw) "Speaker B:" = true
          · have hsp := goodLine_spoken_B raw hgood hb hA hB
            exact ⟨e, by simp only [extractGo, if_neg hb, if_neg hA, if_pos hB, if_neg hsp, he]⟩
          · exfalso
            simp only [goodLine, if_neg hb, if_neg hA, if_neg hB] at hgood
            cases hgood
    · by_cases hb : pyStrip raw = ""
      · exfalso
        simp only [goodLine, if_pos hb] at hgood
        exact hgood trivial
      · by_cases hA : pyStartsWith (pyStrip raw) "Speaker A:" = true
        · have hsp : pyStrip (pyDrop (pyStrip raw) 10) = "" := by
            simp only [goodLine, if_neg hb, if_pos hA, decide_eq_true_eq] at hgood
            exact not_ne_iff.mp hgood
          exact ⟨"No dialogue found after label Speaker A:",
            by simp only [extractGo, if_neg hb, if_pos hA, if_pos hsp]⟩
        · by_cases hB : pyStartsWith (pyStrip raw) "Speaker B:" = true
          · have hsp : pyStrip (pyDrop (pyStrip raw) 10) = "" := by
              simp only [goodLine, if_neg hb, if_neg hA, if_pos hB, decide_eq_true_eq] at hgood
              exact not_ne_iff.mp hgood
            exact ⟨"No dialogue found after label Speaker B:",
              by simp only [extractGo, if_neg hb, if_neg hA, if_pos hB, if_pos hsp]⟩
          · exact ⟨"Script must contain lines that begin with Speaker A: or Speaker B:",
              by simp only [extractGo, if_neg hb, if_neg hA, if_neg hB]⟩

lemma lineTurn_isSome_of_good (raw : String) (hgood : goodLine raw = true)
    (hb : ¬ pyStrip raw = "") : ∃ t, lineTurn raw = some t := by
  by_cases hA : pyStartsWith (pyStrip raw) "Speaker A:" = true
  · exact ⟨⟨"SpeakerA", pyStrip (pyDrop (pyStrip raw) 10)⟩,
      by simp only [lineTurn, if_neg hb, if_pos hA]⟩
  · by_cases hB : pyStartsWith (pyStrip raw) "Speaker B:" = true
    · exact ⟨⟨"SpeakerB", pyStrip (pyDrop (pyStrip raw) 10)⟩,
      by simp only [lineTurn, if_neg hb, if_neg hA, if_pos hB]⟩
    · exfalso
      simp only [goodLine, if_neg hb, if_neg hA, if_neg hB] at hgood
      cases hgood

/-- C6: `extract_turns` succeeds exactly when every stripped non-blank
line of the script carries one of the two speaker labels with non-blank
text after the label and at least one turn results, and on success it
returns the turns in the script's line order; otherwise (an unmatched
non-blank line, a label with no text, or no turns at all) it fails with
a validation error. -/
theorem extract_turns_spec (script_text : String) :
    ((∃ ts, extract_turns script_text = .ok ts) ↔
      ((∀ raw ∈ pySplitlines script_text, goodLine raw = true) ∧
        ∃ raw ∈ pySplitlines script_text, ¬ pyStrip raw = ""))
    ∧ ∀ ts, extract_turns script_text = .ok ts →
        ts = (pySplitlines script_text).filterMap lineTurn := by
  cases hE : extractGo (pySplitlines script_text) with
  | error e =>
    have hbad : ¬ (∀ raw ∈ pySplitlines script_text, goodLine raw = true) := by
      intro hall
      rw [extractGo_ok_of_good _ hall] at hE
      cases hE
    constructor
    · constructor
      · rintro ⟨ts, hts⟩
        simp only [extract_turns, hE] at hts
        cases hts
      · rintro ⟨hall, -⟩
        exact absurd hall hbad
    · intro ts hts
      simp only [extract_turns, hE] at hts
      cases hts
  | ok v =>
    have hall : ∀ raw ∈ pySplitlines script_text, goodLine raw = true := by
      by_contra hnot
      push_neg at hnot
      have hex : ∃ raw ∈ pySplitlines script_text, goodLine raw = false := by
        rcases hnot with ⟨raw, hr, hne⟩
        exact ⟨raw, hr, by simpa using hne⟩
      rcases extractGo_error_of_bad _ hex with ⟨e, he⟩
      rw [he] at hE
      cases hE
    have hfm : v = (pySplitlines script_text).filterMap lineTurn := by
      have h2 := extractGo_ok_of_good _ hall
      rw [hE] at h2
      exact Except.ok.inj h2
    cases v with
    | nil =>
      constructor
      · constructor
        · rintro ⟨ts, hts⟩
          simp only [extract_turns, hE] at hts
          cases hts
        · rintro ⟨-, raw, hr, hnb⟩
          exfalso
          rcases lineTurn_isSome_of_good raw (hall raw hr) hnb with ⟨t, ht⟩
          have hn : lineTurn raw = none := List.filterMap_eq_nil_iff.mp hfm.symm raw hr
          rw [hn] at ht
          cases ht
      · intro ts hts
        simp only [extract_turns, hE] at hts
        cases hts
    | cons a as =>
      constructor
      · constructor
        · intro _
          refine ⟨hall, ?_⟩
          by_contra hnb
          push_neg at hnb
          have hnil : (pySplitlines script_text).filterMap lineTurn = [] :=
            List.filterMap_eq_nil_iff.mpr (fun raw hr => lineTurn_of_blank raw (hnb raw hr))
          rw [← hfm] at hnil
          cases hnil
        · intro _
          exact ⟨a :: as, by simp only [extract_turns, hE]⟩
      · intro ts hts
        simp only [extract_turns, hE] at hts
        rw [← Except.ok.inj hts]
        exact hfm

/-- Witness for C6: a two-line script with both speakers. -/
theorem extract_turns_spec_witness :
    ([⟨"SpeakerA", "hi"⟩, ⟨"SpeakerB", "yo"⟩] : List Turn)
      = (pySplitlines "Speaker A: hi\nSpeaker B: yo").filterMap lineTurn :=
  (extract_turns_spec "Speaker A: hi\nSpeaker B: yo").2
    [⟨"SpeakerA", "hi"⟩, ⟨"SpeakerB", "yo"⟩] rfl

lemma cleanGo_none (lines : List String) (h : cleanGo lines = none) :
    ∀ l ∈ lines, isSpeakerStart l = false := by
  induction lines with
  | nil => simp
  | cons l rest ih =>
    simp only [cleanGo] at h
    by_cases hl : isSpeakerStart l = true
    · rw [if_pos hl] at h
      cases h
    · rw [if_neg hl] at h
      intro x hx
      rcases List.mem_cons.mp hx with rfl | hm
      · exact Bool.not_eq_true _ ▸ hl
      · exact ih h x hm

lemma cleanGo_some (lines : List String) :
    ∀ suf, cleanGo lines = some suf →
      ∃ pre, lines = pre ++ suf ∧ (∀ l ∈ pre, isSpeakerStart l = false) ∧
        ∃ hd tl, suf = hd :: tl ∧ isSpeakerStart hd = true := by
  induction lines with
  | nil => intro suf h; cases h
  | cons l rest ih =>
    intro suf h
    simp only [cleanGo] at h
    by_cases hl : isSpeakerStart l = true
    · rw [if_pos hl] at h
      cases h
      exact ⟨[], rfl, by simp, l, rest, rfl, hl⟩
    · rw [if_neg hl] at h
      rcases ih suf h with ⟨pre, heq, hpre, hhd⟩
      refine ⟨l :: pre, by simp [heq], ?_, hhd⟩
      intro x hx
      rcases List.mem_cons.mp hx with rfl | hm
      · exact Bool.not_eq_true _ ▸ hl
      · exact hpre x hm

/-- C9: `clean_podcast_script` returns the script unchanged when no line
begins with a speaker label, and otherwise returns the suffix of the
script's lines starting at the first line that begins with
`"Speaker A:"` or `"Speaker B:"`, rejoined with newlines. -/
theorem clean_podcast_script_spec (script : String) :
    ((∀ l ∈ pySplitlines script, isSpeakerStart l = false) →
      clean_podcast_script script = script)
    ∧ ((∃ l ∈ pySplitlines script, isSpeakerStart l = true) →
      ∃ pre suf, pySplitlines script = pre ++ suf
        ∧ (∀ l ∈ pre, isSpeakerStart l = false)
        ∧ (∃ hd tl, suf = hd :: tl ∧ isSpeakerStart hd = true)
        ∧ clean_podcast_script script = joinNl suf) := by
  constructor
  · intro hall
    unfold clean_podcast_script
    cases hc : cleanGo (pySplitlines script) with
    | none => rfl
    | some suf =>
      rcases cleanGo_some _ suf hc with ⟨pre, heq, hpre, hd, tl, hsuf, hhd⟩
      have hmem : hd ∈ pySplitlines script := by
        rw [heq, hsuf]
        exact List.mem_append_right _ (List.mem_cons_self hd tl)
      rw [hall hd hmem] at hhd
      cases hhd
  · intro hex
    unfold clean_podcast_script
    cases hc : cleanGo (pySplitlines script) with
    | none =>
      rcases hex with ⟨l, hl, hl2⟩
      rw [cleanGo_none _ hc l hl] at hl2
      cases hl2
    | some suf =>
      rcases cleanGo_some _ suf hc with ⟨pre, heq, hpre, hhd⟩
      exact ⟨pre, suf, heq, hpre, hhd, rfl⟩

/-- Witness for C9: a script with one preamble line before the dialogue. -/
theorem clean_podcast_script_spec_witness :
    ∃ pre suf, pySplitlines "intro\nSpeaker A: hi" = pre ++ suf
      ∧ (∀ l ∈ pre, isSpeakerStart l = false)
      ∧ (∃ hd tl, suf = hd :: tl ∧ isSpeakerStart hd = true)
      ∧ clean_podcast_script "intro\nSpeaker A: hi" = joinNl suf :=
  (clean_podcast_script_spec "intro\nSpeaker A: hi").2
    ⟨"Speaker A: hi", by decide, by decide⟩
